import Mathlib

/-!
Verification development for the orthogonal greedy algorithm (OGA) core of
the GreedyAlgorithm repository.  The embedding covers:

* the energy functional class FNM_Elliptic_4th_1d_NBC
  (greedy/lossfunction/fnm_elliptic_4th_1d_nbc.py), and
* the greedy orchestrator orthogonal_greedy
  (example/oga_fnm_elliptic_2nd_2d_nbc.py), specialised to the
  one-dimensional energy class that is present in the repository.

Torch tensors over the quadrature axis are embedded as lists of rationals
(exact arithmetic in place of floating point); two-dimensional tensors are
lists of rows.  Elementwise tensor products are zipWith-products, torch.mm
against a transposed matrix is a row-by-row dot product, and broadcasting
of a column against a matrix is recorded explicitly at each use site.

Automatic differentiation is embedded semantically: a callable handed to
torch.autograd is carried together with the first and second derivative
functions that autograd computes for it (structure DiffFun).  The in-place
mutation of requires_grad and the rebinding of self.quadpts performed by
_get_energy_items are modelled with a small heap of tensor objects
(structure AGState): requires_grad_ updates the object in place, detach
allocates a fresh object with the same numerical data.

External collaborators that are not part of the repository source
(the neuron dictionary search, torch.linalg.solve, torch.sqrt, and the
shallow network forward pass) enter the orchestrator as abstract function
parameters of the loop configuration.
-/

namespace OGA

/-- Elementwise product of two tensors along the quadrature axis
(torch broadcasting of same-length vectors). -/
def hadamard (x y : List ℚ) : List ℚ :=
  List.zipWith (fun a b => a * b) x y

/-- Dot product of two rows; torch.mm against a transposed matrix reduces
to this on each pair of rows. -/
def dot (x y : List ℚ) : ℚ :=
  (hadamard x y).sum

/-- Product torch.mm A (B.t()) as a list-of-rows matrix. -/
def mmT (A B : List (List ℚ)) : List (List ℚ) :=
  A.map (fun ra => B.map (fun rb => dot ra rb))

/-- Multiplication of a matrix by a scalar on the right. -/
def matScale (A : List (List ℚ)) (c : ℚ) : List (List ℚ) :=
  A.map (fun r => r.map (fun x => x * c))

/-- Elementwise product of two matrices. -/
def matHadamard (A B : List (List ℚ)) : List (List ℚ) :=
  List.zipWith hadamard A B

/-- Elementwise sum of two matrices. -/
def matAdd (A B : List (List ℚ)) : List (List ℚ) :=
  List.zipWith (List.zipWith (fun a b => a + b)) A B

/-- Outer product torch.mm of a column with its transpose. -/
def outerProd (x y : List ℚ) : List (List ℚ) :=
  x.map (fun a => y.map (fun b => a * b))

/-- Entry (i, j) of a list-of-rows matrix, 0 outside the stored range. -/
def entry (A : List (List ℚ)) (i j : Nat) : ℚ :=
  (A.getD i []).getD j 0

/-- A callable together with the exact first and second derivatives that
torch.autograd returns for it at a point (the problem is 1-d, so the
gradient and Hessian at a quadrature point are scalars). -/
structure DiffFun where
  val : ℚ → ℚ
  grad : ℚ → ℚ
  hess : ℚ → ℚ

/-- A torch tensor object: numerical data plus the requires_grad flag. -/
structure QTensor where
  data : List ℚ
  requiresGrad : Bool
deriving DecidableEq

/-- The heap of tensor objects reachable from self.quadpts, with the index
of the object self.quadpts is currently bound to.  Index 0 is the tensor
created by the quadrature provider and shared with it by reference. -/
structure AGState where
  objs : List QTensor
  selfQuad : Nat
deriving DecidableEq

/-- Numerical data of the object self.quadpts is bound to. -/
def AGState.read (s : AGState) : List ℚ :=
  (s.objs.getD s.selfQuad ⟨[], false⟩).data

/-- Embedding of _get_energy_items: evaluates the callable and its autograd
first and second derivatives on the quadrature points, detaching the
results.  requires_grad_ mutates the currently bound tensor object in
place; the final self.quadpts = self.quadpts.detach() allocates a fresh
object with the same data and requires_grad disabled and rebinds
self.quadpts to it. -/
def getEnergyItems (f : DiffFun) (s : AGState) :
    (List ℚ × List ℚ × List ℚ) × AGState :=
  let pts := s.read
  let objs1 := s.objs.set s.selfQuad ⟨pts, true⟩
  let objVal := pts.map f.val
  let objGrad := pts.map f.grad
  let objHess := pts.map f.hess
  ((objVal, objGrad, objHess), ⟨objs1 ++ [⟨pts, false⟩], objs1.length⟩)

/-- The PDE collaborator: exact solution (with the derivatives autograd
recovers for it) and the source term. -/
structure PDEData where
  solution : DiffFun
  source : ℚ → ℚ

/-- State of the energy functional object FNM_Elliptic_4th_1d_NBC. -/
structure EnergyFunc where
  sigma : ℚ → ℚ
  dsigma : ℚ → Nat → ℚ
  ag : AGState
  weights : List ℚ
  area : ℚ
  sourceData : List ℚ
  pde : PDEData
  preSolution : DiffFun
  parallelEvaluation : Bool

/-- The method _zero, p maps to 0 * sin p, together with the derivatives
autograd computes for it.  The transcendental sin and cos are abstract
function parameters; every fact proved below holds for all of them. -/
def zeroFun (sinF cosF : ℚ → ℚ) : DiffFun :=
  ⟨fun p => 0 * sinF p, fun p => 0 * cosF p, fun p => 0 * (-(sinF p))⟩

/-- Embedding of the constructor: stores the quadrature data, evaluates the
source on the quadrature points, and initialises the tracked approximation
pre_solution to the zero function _zero. -/
def initEnergy (sigma : ℚ → ℚ) (dsigma : ℚ → Nat → ℚ)
    (quadpts weights : List ℚ) (area : ℚ) (pde : PDEData)
    (sinF cosF : ℚ → ℚ) (parallelEvaluation : Bool) : EnergyFunc :=
  { sigma := sigma
    dsigma := dsigma
    ag := ⟨[⟨quadpts, false⟩], 0⟩
    weights := weights
    area := area
    sourceData := quadpts.map pde.source
    pde := pde
    preSolution := zeroFun sinF cosF
    parallelEvaluation := parallelEvaluation }

/-- The method _get_error: pointwise difference between the exact solution
and the tracked approximation, as the callable autograd differentiates. -/
def getError (E : EnergyFunc) : DiffFun :=
  ⟨fun p => E.pde.solution.val p - E.preSolution.val p,
   fun p => E.pde.solution.grad p - E.preSolution.grad p,
   fun p => E.pde.solution.hess p - E.preSolution.hess p⟩

/-- Embedding of _energy_norm: the squared L2 norm of the callable, and the
full energy norm accumulated over the value, gradient and Hessian items,
each as a weighted quadrature sum scaled by area. -/
def energyNorm (E : EnergyFunc) (f : DiffFun) : (ℚ × ℚ) × EnergyFunc :=
  let r := getEnergyItems f E.ag
  let items := r.1
  let l2 := hadamard (items.1.map (fun a => a ^ 2)) E.weights
  let l2Norm := l2.sum * E.area
  let eNorm := 0
      + (hadamard (items.1.map (fun a => a ^ 2)) E.weights).sum * E.area
      + (hadamard (items.2.1.map (fun a => a ^ 2)) E.weights).sum * E.area
      + (hadamard (items.2.2.map (fun a => a ^ 2)) E.weights).sum * E.area
  ((l2Norm, eNorm), { E with ag := r.2 })

/-- Embedding of energy_error. -/
def energyError (E : EnergyFunc) : (ℚ × ℚ) × EnergyFunc :=
  energyNorm E (getError E)

/-- Embedding of get_stiffmat_and_rhs: assembles the stiffness matrix and
the load vector from the selected parameter rows and the core matrix.
Broadcasting notes against the source: g2 = g1 * weights.t() multiplies
every row of g1 elementwise with the weights; torch.mm(v, v.t()) is the
outer product of the squared first parameter column with itself; the load
vector torch.mm(g1, f) is a row-by-row dot against the weighted source. -/
def getStiffmatAndRhs (E : EnergyFunc) (parameters : List (List ℚ))
    (core : List (List ℚ)) : List (List ℚ) × List ℚ :=
  let w := parameters.map (fun r => r.getD 0 0)
  let v := w.map (fun x => x * x)
  let g1 := core.map (fun r => r.map E.sigma)
  let d2g1 := core.map (fun r => r.map (fun x => E.dsigma x 2))
  let g2 := g1.map (fun r => hadamard r E.weights)
  let d2g2 := d2g1.map (fun r => hadamard r E.weights)
  let G := matScale (mmT g1 g2) E.area
  let d2G := matScale (matHadamard (mmT d2g1 d2g2) (outerProd v v)) E.area
  let Gk := matAdd d2G G
  let f := hadamard E.sourceData E.weights
  let bk := (g1.map (fun r => dot r f)).map (fun x => x * E.area)
  (Gk, bk)

/-- Row i of the batched candidate score assembled inside evaluate: the
core row of the candidate is w i * x j + b i, and the assembled value is
minus one half times the squared area-scaled residual pairing. -/
def scoreOne (E : EnergyFunc) (quad fw uw hw : List ℚ) (wi bi : ℚ) : ℚ :=
  let corei := quad.map (fun x => wi * x + bi)
  let gi := corei.map E.sigma
  let d2gi := corei.map (fun x => E.dsigma x 2)
  let fgi := dot gi fw
  let ugi := dot gi uw
  let d2ud2gi := dot d2gi hw * wi * wi
  let res := -(1/2) * ((d2ud2gi + ugi - fgi) * E.area) ^ 2
  res

/-- Embedding of evaluate: scores a batch of candidate parameters, given as
the column of inner weights and the column of biases, against the current
tracked approximation.  Row i of the core matrix torch.mm(A, B) evaluates
to w i * x j + b i at quadrature point j. -/
def evaluate (E : EnergyFunc) (paramW paramB : List ℚ) :
    List ℚ × EnergyFunc :=
  let r := getEnergyItems E.preSolution E.ag
  let uVal := r.1.1
  let uHess := r.1.2.2
  let E1 := { E with ag := r.2 }
  let quad := E1.ag.read
  let fw := hadamard E.sourceData E.weights
  let uw := hadamard uVal E.weights
  let hw := hadamard uHess E.weights
  let score := List.zipWith (scoreOne E quad fw uw hw) paramW paramB
  (score, E1)

/-- Embedding of evaluate_large_scale, which delegates to evaluate. -/
def evaluateLargeScale (E : EnergyFunc) (paramW paramB : List ℚ) :
    List ℚ × EnergyFunc :=
  evaluate E paramW paramB

/-- Embedding of update_solution: rebinds the tracked approximation. -/
def updateSolution (E : EnergyFunc) (preSolution : DiffFun) : EnergyFunc :=
  { E with preSolution := preSolution }

/-- Configuration of the greedy orchestrator.  The collaborators that live
outside the repository source stay abstract: the dictionary search
find_optimal_element, the dense solver torch.linalg.solve, torch.sqrt, and
the shallow network forward pass built from the updated parameters. -/
structure OGAConfig where
  numEpochs : Nat
  dict : EnergyFunc → List ℚ
  solve : List (List ℚ) → List ℚ → List ℚ
  sqrtF : ℚ → ℚ
  forward : List ℚ → List (List ℚ) → DiffFun

/-- Mutable containers owned by the orchestrator orthogonal_greedy. -/
structure LoopState where
  energy : EnergyFunc
  errL2 : List ℚ
  errH1 : List ℚ
  coreMat : List (List ℚ)
  innerParam : List (List ℚ)
  outerParam : List ℚ

/-- The containers as orthogonal_greedy preallocates them: zero tensors of
num_epochs rows, with dim + 1 = 2 columns for the inner parameters of the
1-d energy and num_quadpts columns for the core matrix. -/
def initLoop (cfg : OGAConfig) (E : EnergyFunc) : LoopState :=
  { energy := E
    errL2 := List.replicate cfg.numEpochs 0
    errH1 := List.replicate cfg.numEpochs 0
    coreMat := List.replicate cfg.numEpochs (List.replicate E.ag.read.length 0)
    innerParam := List.replicate cfg.numEpochs (List.replicate 2 0)
    outerParam := List.replicate cfg.numEpochs 0 }

/-- One iteration of the orthogonal_greedy loop at index k: record the
pre-iteration errors at index k, query the dictionary, write row k of the
inner parameters and of the core-matrix cache, assemble the Galerkin
system from the first k + 1 rows, overwrite the first k + 1 outer
coefficients with the solver output, and rebind the tracked solution to
the updated network forward pass. -/
def ogaStep (cfg : OGAConfig) (k : Nat) (s : LoopState) : LoopState :=
  let er := energyError s.energy
  let E1 := er.2
  let errL2n := s.errL2.set k (cfg.sqrtF er.1.1)
  let errH1n := s.errH1.set k (cfg.sqrtF er.1.2)
  let opt := cfg.dict E1
  let innerParamN := s.innerParam.set k [opt.getD 0 0, opt.getD 1 0]
  let Ak := innerParamN.getD k []
  let Ck := E1.ag.read.map (fun x => dot Ak [x, 1])
  let coreMatN := s.coreMat.set k Ck
  let core := coreMatN.take (k + 1)
  let system := getStiffmatAndRhs E1 (innerParamN.take (k + 1)) core
  let coef := cfg.solve system.1 system.2
  let outerParamN := coef.take (k + 1) ++ s.outerParam.drop (k + 1)
  let E2 := updateSolution E1 (cfg.forward outerParamN innerParamN)
  { energy := E2
    errL2 := errL2n
    errH1 := errH1n
    coreMat := coreMatN
    innerParam := innerParamN
    outerParam := outerParamN }

/-- State of the orchestrator after the first n iterations of the loop. -/
def ogaRun (cfg : OGAConfig) (E : EnergyFunc) : Nat → LoopState
  | 0 => initLoop cfg E
  | k + 1 => ogaStep cfg k (ogaRun cfg E k)

/-! Auxiliary list lemmas used to compute matrix entries. -/

theorem getD_of_len_le {α : Type} (A : List α) (i : Nat) (d : α)
    (h : A.length ≤ i) : A.getD i d = d := by
  induction A generalizing i with
  | nil => cases i <;> rfl
  | cons a A ih =>
    cases i with
    | zero => exact absurd h (by simp)
    | succ i => simpa [List.getD] using ih i (by simpa using h)

theorem getD_map_abs {α β : Type} (f : α → β) (A : List α) (i : Nat)
    (dα : α) :
    (A.map f).getD i (f dα) = f (A.getD i dα) := by
  induction A generalizing i with
  | nil => cases i <;> rfl
  | cons a A ih => cases i with
    | zero => rfl
    | succ i => simp [List.getD, ih i]

theorem getD_map_of_lt {α β : Type} (f : α → β) (A : List α) (i : Nat)
    (h : i < A.length) (dα : α) (dβ : β) :
    (A.map f).getD i dβ = f (A.getD i dα) := by
  induction A generalizing i with
  | nil => exact absurd h (by simp)
  | cons a A ih => cases i with
    | zero => rfl
    | succ i => simpa [List.getD] using ih i (by simpa using h)

theorem getD_zipWith_abs {α β γ : Type} (f : α → β → γ)
    (A : List α) (B : List β) (i : Nat) (dα : α) (dβ : β)
    (h1 : ∀ y, f dα y = f dα dβ) (h2 : ∀ x, f x dβ = f dα dβ) :
    (List.zipWith f A B).getD i (f dα dβ) = f (A.getD i dα) (B.getD i dβ) := by
  induction A generalizing B i with
  | nil =>
    simp only [List.zipWith_nil_left]
    cases i <;> simp [List.getD, h1]
  | cons a A ih =>
    cases B with
    | nil => cases i <;> simp [List.getD, h2]
    | cons b B =>
      cases i with
      | zero => rfl
      | succ i => simpa [List.getD] using ih B i

theorem getD_zipWith_of_lt {α β γ : Type} (f : α → β → γ)
    (A : List α) (B : List β) (i : Nat)
    (hA : i < A.length) (hB : i < B.length) (dα : α) (dβ : β) (dγ : γ) :
    (List.zipWith f A B).getD i dγ = f (A.getD i dα) (B.getD i dβ) := by
  induction A generalizing B i with
  | nil => exact absurd hA (by simp)
  | cons a A ih =>
    cases B with
    | nil => exact absurd hB (by simp)
    | cons b B =>
      cases i with
      | zero => rfl
      | succ i =>
        simpa [List.getD] using ih B i (by simpa using hA) (by simpa using hB)

theorem hadamard_getD (x y : List ℚ) (i : Nat) :
    (hadamard x y).getD i 0 = x.getD i 0 * y.getD i 0 := by
  simpa using getD_zipWith_abs (fun a b => a * b) x y i 0 0
    (fun y => by ring) (fun x => by ring)

theorem dot_hadamard_comm (x y w : List ℚ) :
    dot x (hadamard y w) = dot y (hadamard x w) := by
  induction x generalizing y w with
  | nil => cases y <;> cases w <;> simp [dot, hadamard]
  | cons a x ih =>
    cases y with
    | nil => simp [dot, hadamard]
    | cons b y =>
      cases w with
      | nil => simp [dot, hadamard]
      | cons c w =>
        have h := ih y w
        simp only [dot, hadamard, List.zipWith_cons_cons, List.sum_cons] at h ⊢
        rw [h]; ring

/-- Closed form of an entry of the assembled stiffness matrix: inside the
stored range it is the fourth-order bilinear term scaled by the squared
inner weights plus the zeroth-order bilinear term, both scaled by area;
outside the stored range it is zero. -/
theorem entry_stiffmat (E : EnergyFunc) (P C : List (List ℚ)) (i l : Nat) :
    entry (getStiffmatAndRhs E P C).1 i l =
      if i < C.length ∧ i < P.length ∧ l < C.length ∧ l < P.length then
        dot ((C.getD i []).map (fun x => E.dsigma x 2))
            (hadamard ((C.getD l []).map (fun x => E.dsigma x 2)) E.weights)
          * ((P.getD i []).getD 0 0 * (P.getD i []).getD 0 0
              * ((P.getD l []).getD 0 0 * (P.getD l []).getD 0 0)) * E.area
        + dot ((C.getD i []).map E.sigma)
            (hadamard ((C.getD l []).map E.sigma) E.weights) * E.area
      else 0 := by
  classical
  set w : List ℚ := P.map (fun r => r.getD 0 0) with hw
  set v : List ℚ := w.map (fun x => x * x) with hv
  set g1 : List (List ℚ) := C.map (fun r => r.map E.sigma) with hg1
  set d2g1 : List (List ℚ) := C.map (fun r => r.map (fun x => E.dsigma x 2))
    with hd2g1
  set g2 : List (List ℚ) := g1.map (fun r => hadamard r E.weights) with hg2
  set d2g2 : List (List ℚ) := d2g1.map (fun r => hadamard r E.weights)
    with hd2g2
  have hGk : (getStiffmatAndRhs E P C).1 =
      matAdd (matScale (matHadamard (mmT d2g1 d2g2) (outerProd v v)) E.area)
        (matScale (mmT g1 g2) E.area) := by
    simp only [getStiffmatAndRhs, hw, hv, hg1, hd2g1, hg2, hd2g2]
  have hlen_d2G :
      (matScale (matHadamard (mmT d2g1 d2g2) (outerProd v v)) E.area).length
        = min C.length P.length := by
    simp [matScale, matHadamard, mmT, outerProd, hv, hw, hd2g1]
  have hlen_G : (matScale (mmT g1 g2) E.area).length = C.length := by
    simp [matScale, mmT, hg1]
  have hlen_d2g1 : d2g1.length = C.length := by simp [hd2g1]
  have hlen_g1 : g1.length = C.length := by simp [hg1]
  have hlen_d2g2 : d2g2.length = C.length := by simp [hd2g2, hd2g1]
  have hlen_g2 : g2.length = C.length := by simp [hg2, hg1]
  have hlen_v : v.length = P.length := by simp [hv, hw]
  by_cases hi : i < C.length ∧ i < P.length
  · obtain ⟨hiC, hiP⟩ := hi
    have hmmd2row : (mmT d2g1 d2g2).getD i [] =
        d2g2.map (fun rb => dot (d2g1.getD i []) rb) := by
      simpa [mmT] using
        getD_map_of_lt (fun ra => d2g2.map (fun rb => dot ra rb)) d2g1 i
          (by rw [hlen_d2g1]; exact hiC) [] []
    have hmmgrow : (mmT g1 g2).getD i [] =
        g2.map (fun rb => dot (g1.getD i []) rb) := by
      simpa [mmT] using
        getD_map_of_lt (fun ra => g2.map (fun rb => dot ra rb)) g1 i
          (by rw [hlen_g1]; exact hiC) [] []
    have hOrow : (outerProd v v).getD i [] =
        v.map (fun b => v.getD i 0 * b) := by
      simpa [outerProd] using
        getD_map_of_lt (fun a => v.map (fun b => a * b)) v i
          (by rw [hlen_v]; exact hiP) 0 []
    have hrow : ((getStiffmatAndRhs E P C).1).getD i [] =
        List.zipWith (fun a b => a + b)
          ((hadamard ((mmT d2g1 d2g2).getD i []) ((outerProd v v).getD i [])).map
            (fun x => x * E.area))
          (((mmT g1 g2).getD i []).map (fun x => x * E.area)) := by
      rw [hGk]
      have hzw := getD_zipWith_of_lt (List.zipWith (fun a b : ℚ => a + b))
        (matScale (matHadamard (mmT d2g1 d2g2) (outerProd v v)) E.area)
        (matScale (mmT g1 g2) E.area) i
        (by rw [hlen_d2G]; omega) (by rw [hlen_G]; exact hiC) [] [] []
      unfold matAdd
      rw [hzw]
      congr 1
      · have h1 : (matScale (matHadamard (mmT d2g1 d2g2) (outerProd v v)) E.area).getD i []
            = ((matHadamard (mmT d2g1 d2g2) (outerProd v v)).getD i []).map
                (fun x => x * E.area) := by
          simpa [matScale] using
            getD_map_abs (fun r : List ℚ => r.map (fun x => x * E.area))
              (matHadamard (mmT d2g1 d2g2) (outerProd v v)) i []
        rw [h1]
        congr 1
        simpa [matHadamard] using
          getD_zipWith_abs hadamard (mmT d2g1 d2g2) (outerProd v v) i [] []
            (fun y => by simp [hadamard]) (fun x => by simp [hadamard])
      · simpa [matScale] using
          getD_map_abs (fun r : List ℚ => r.map (fun x => x * E.area))
            (mmT g1 g2) i []
    have hrowlen : (((getStiffmatAndRhs E P C).1).getD i []).length
        = min (min C.length P.length) C.length := by
      rw [hrow, hmmd2row, hmmgrow, hOrow]
      simp [hadamard, hlen_d2g2, hlen_g2, hlen_v]
    by_cases hl : l < C.length ∧ l < P.length
    · obtain ⟨hlC, hlP⟩ := hl
      rw [if_pos ⟨hiC, hiP, hlC, hlP⟩]
      rw [entry, hrow, hmmd2row, hmmgrow, hOrow]
      have hX := getD_zipWith_of_lt (fun a b : ℚ => a + b)
        ((hadamard (d2g2.map (fun rb => dot (d2g1.getD i []) rb))
            (v.map (fun b => v.getD i 0 * b))).map (fun x => x * E.area))
        ((g2.map (fun rb => dot (g1.getD i []) rb)).map (fun x => x * E.area)) l
        (by simp [hadamard, hlen_d2g2, hlen_v]; omega)
        (by simp [hlen_g2]; omega) 0 0 0
      rw [hX]
      have hXl : ((hadamard (d2g2.map (fun rb => dot (d2g1.getD i []) rb))
            (v.map (fun b => v.getD i 0 * b))).map (fun x => x * E.area)).getD l 0
          = ((hadamard (d2g2.map (fun rb => dot (d2g1.getD i []) rb))
              (v.map (fun b => v.getD i 0 * b))).getD l 0) * E.area := by
        simpa using
          getD_map_abs (fun x : ℚ => x * E.area)
            (hadamard (d2g2.map (fun rb => dot (d2g1.getD i []) rb))
              (v.map (fun b => v.getD i 0 * b))) l 0
      have hYl : ((g2.map (fun rb => dot (g1.getD i []) rb)).map
            (fun x => x * E.area)).getD l 0
          = ((g2.map (fun rb => dot (g1.getD i []) rb)).getD l 0) * E.area := by
        simpa using
          getD_map_abs (fun x : ℚ => x * E.area)
            (g2.map (fun rb => dot (g1.getD i []) rb)) l 0
      rw [hXl, hYl, hadamard_getD]
      have hMl : (d2g2.map (fun rb => dot (d2g1.getD i []) rb)).getD l 0
          = dot (d2g1.getD i []) (d2g2.getD l []) := by
        simpa [dot, hadamard] using
          getD_map_of_lt (fun rb => dot (d2g1.getD i []) rb) d2g2 l
            (by rw [hlen_d2g2]; exact hlC) [] 0
      have hGl : (g2.map (fun rb => dot (g1.getD i []) rb)).getD l 0
          = dot (g1.getD i []) (g2.getD l []) := by
        simpa [dot, hadamard] using
          getD_map_of_lt (fun rb => dot (g1.getD i []) rb) g2 l
            (by rw [hlen_g2]; exact hlC) [] 0
      have hvl : (v.map (fun b => v.getD i 0 * b)).getD l 0
          = v.getD i 0 * v.getD l 0 := by
        simpa using getD_map_abs (fun b => v.getD i 0 * b) v l 0
      have hd2g1get : ∀ m : Nat, d2g1.getD m [] =
          (C.getD m []).map (fun x => E.dsigma x 2) := by
        intro m
        simpa [hd2g1] using
          getD_map_abs (fun r : List ℚ => r.map (fun x => E.dsigma x 2)) C m []
      have hg1get : ∀ m : Nat, g1.getD m [] = (C.getD m []).map E.sigma := by
        intro m
        simpa [hg1] using getD_map_abs (fun r : List ℚ => r.map E.sigma) C m []
      have hd2g2get : d2g2.getD l [] =
          hadamard ((C.getD l []).map (fun x => E.dsigma x 2)) E.weights := by
        rw [← hd2g1get l]
        simpa [hd2g2, hadamard] using
          getD_map_abs (fun r : List ℚ => hadamard r E.weights) d2g1 l []
      have hg2get : g2.getD l [] =
          hadamard ((C.getD l []).map E.sigma) E.weights := by
        rw [← hg1get l]
        simpa [hg2, hadamard] using
          getD_map_abs (fun r : List ℚ => hadamard r E.weights) g1 l []
      have hvget : ∀ m : Nat, v.getD m 0 =
          (P.getD m []).getD 0 0 * (P.getD m []).getD 0 0 := by
        intro m
        have h1 : v.getD m 0 = w.getD m 0 * w.getD m 0 := by
          simpa [hv] using getD_map_abs (fun x : ℚ => x * x) w m 0
        have h2 : w.getD m 0 = (P.getD m []).getD 0 0 := by
          simpa [hw] using
            getD_map_abs (fun r : List ℚ => r.getD 0 0) P m []
        rw [h1, h2]
      rw [hMl, hGl, hvl, hd2g2get, hg2get, hd2g1get i, hg1get i,
        hvget i, hvget l]
    · rw [if_neg (by intro hc; exact hl ⟨hc.2.2.1, hc.2.2.2⟩)]
      rw [entry, getD_of_len_le _ _ _ (by rw [hrowlen]; omega)]
  · have hcond : ¬ (i < C.length ∧ i < P.length ∧ l < C.length ∧ l < P.length) := by
      intro hc; exact hi ⟨hc.1, hc.2.1⟩
    rw [if_neg hcond]
    have hlenGk : ((getStiffmatAndRhs E P C).1).length
        = min (min C.length P.length) C.length := by
      rw [hGk]
      simp [matAdd, List.length_zipWith, hlen_d2G, hlen_G]
    rw [entry, getD_of_len_le ((getStiffmatAndRhs E P C).1) i []
      (by rw [hlenGk]; omega)]
    rfl

/-- Claim C2: for every parameter history and core matrix, the assembled
stiffness matrix is symmetric; in the exact arithmetic of the embedding
every entry equals its transposed entry, hence in floating point the
matrix is symmetric to rounding tolerance. -/
theorem C2_stiffmat_symmetric (E : EnergyFunc) (P C : List (List ℚ))
    (i l : Nat) :
    entry (getStiffmatAndRhs E P C).1 i l
      = entry (getStiffmatAndRhs E P C).1 l i := by
  rw [entry_stiffmat, entry_stiffmat]
  by_cases h : i < C.length ∧ i < P.length ∧ l < C.length ∧ l < P.length
  · rw [if_pos h, if_pos ⟨h.2.2.1, h.2.2.2, h.1, h.2.1⟩]
    rw [dot_hadamard_comm ((C.getD i []).map (fun x => E.dsigma x 2))
        ((C.getD l []).map (fun x => E.dsigma x 2)) E.weights,
      dot_hadamard_comm ((C.getD i []).map E.sigma)
        ((C.getD l []).map E.sigma) E.weights]
    ring
  · rw [if_neg h,
      if_neg (by intro hc; exact h ⟨hc.2.2.1, hc.2.2.2, hc.1, hc.2.1⟩)]

/-! Invariants of the orchestrator loop. -/

theorem getD_set_ne {α : Type} (A : List α) (m j : Nat) (a d : α)
    (h : m ≠ j) : (A.set m a).getD j d = A.getD j d := by
  induction A generalizing m j with
  | nil => cases m <;> rfl
  | cons x A ih =>
    cases m with
    | zero => cases j with
      | zero => exact absurd rfl h
      | succ j => rfl
    | succ m => cases j with
      | zero => rfl
      | succ j =>
        simpa [List.getD] using ih m j (by omega)

theorem getD_take {α : Type} (A : List α) (n j : Nat) (d : α)
    (h : j < n) : (A.take n).getD j d = A.getD j d := by
  induction A generalizing n j with
  | nil => cases n <;> rfl
  | cons x A ih =>
    cases n with
    | zero => exact absurd h (by omega)
    | succ n => cases j with
      | zero => rfl
      | succ j => simpa [List.getD] using ih n j (by omega)

/-- The load vector has one entry per stored core-matrix row. -/
theorem rhs_length (E : EnergyFunc) (P C : List (List ℚ)) :
    ((getStiffmatAndRhs E P C).2).length = C.length := by
  simp [getStiffmatAndRhs]

/-- One loop iteration only rewrites row k of each preallocated record. -/
theorem ogaStep_set_shape (cfg : OGAConfig) (k : Nat) (s : LoopState) :
    ∃ a b c d, (ogaStep cfg k s).errL2 = s.errL2.set k a
      ∧ (ogaStep cfg k s).errH1 = s.errH1.set k b
      ∧ (ogaStep cfg k s).innerParam = s.innerParam.set k c
      ∧ (ogaStep cfg k s).coreMat = s.coreMat.set k d :=
  ⟨_, _, _, _, rfl, rfl, rfl, rfl⟩

/-- The preallocated containers keep their number of rows. -/
theorem run_len (cfg : OGAConfig) (E0 : EnergyFunc) (n : Nat) :
    (ogaRun cfg E0 n).errL2.length = cfg.numEpochs
      ∧ (ogaRun cfg E0 n).errH1.length = cfg.numEpochs
      ∧ (ogaRun cfg E0 n).innerParam.length = cfg.numEpochs
      ∧ (ogaRun cfg E0 n).coreMat.length = cfg.numEpochs := by
  induction n with
  | zero =>
    simp [ogaRun, initLoop]
  | succ k ih =>
    obtain ⟨a, b, c, d, h1, h2, h3, h4⟩ := ogaStep_set_shape cfg k (ogaRun cfg E0 k)
    refine ⟨?_, ?_, ?_, ?_⟩ <;>
      simp [ogaRun, h1, h2, h3, h4, ih.1, ih.2.1, ih.2.2.1, ih.2.2.2]

/-- The energy functional only ever changes its tracked solution and its
quadrature-tensor heap inside the loop; the assembly data is stable. -/
theorem run_energy_fields (cfg : OGAConfig) (E0 : EnergyFunc) (n : Nat) :
    (ogaRun cfg E0 n).energy.sigma = E0.sigma
      ∧ (ogaRun cfg E0 n).energy.dsigma = E0.dsigma
      ∧ (ogaRun cfg E0 n).energy.weights = E0.weights
      ∧ (ogaRun cfg E0 n).energy.area = E0.area
      ∧ (ogaRun cfg E0 n).energy.sourceData = E0.sourceData
      ∧ (ogaRun cfg E0 n).energy.pde = E0.pde := by
  induction n with
  | zero => exact ⟨rfl, rfl, rfl, rfl, rfl, rfl⟩
  | succ k ih =>
    obtain ⟨h1, h2, h3, h4, h5, h6⟩ := ih
    refine ⟨?_, ?_, ?_, ?_, ?_, ?_⟩ <;>
      simp [ogaRun, ogaStep, updateSolution, energyError, energyNorm,
        h1, h2, h3, h4, h5, h6]

/-- Rows already written are never touched by later iterations: record and
cache entries at index j are identical in every loop state from iteration
j + 1 on. -/
theorem run_rows_stable (cfg : OGAConfig) (E0 : EnergyFunc) (j n m : Nat)
    (hjn : j < n) (hnm : n ≤ m) :
    (ogaRun cfg E0 m).errL2.getD j 0 = (ogaRun cfg E0 n).errL2.getD j 0
      ∧ (ogaRun cfg E0 m).errH1.getD j 0 = (ogaRun cfg E0 n).errH1.getD j 0
      ∧ (ogaRun cfg E0 m).innerParam.getD j []
          = (ogaRun cfg E0 n).innerParam.getD j []
      ∧ (ogaRun cfg E0 m).coreMat.getD j []
          = (ogaRun cfg E0 n).coreMat.getD j [] := by
  induction m with
  | zero =>
    have : n = 0 := by omega
    subst this
    exact ⟨rfl, rfl, rfl, rfl⟩
  | succ m ih =>
    by_cases hcase : n = m + 1
    · subst hcase; exact ⟨rfl, rfl, rfl, rfl⟩
    · have hle : n ≤ m := by omega
      obtain ⟨i1, i2, i3, i4⟩ := ih hle
      obtain ⟨a, b, c, d, h1, h2, h3, h4⟩ :=
        ogaStep_set_shape cfg m (ogaRun cfg E0 m)
      have hne : m ≠ j := by omega
      refine ⟨?_, ?_, ?_, ?_⟩
      · rw [show ogaRun cfg E0 (m + 1) = ogaStep cfg m (ogaRun cfg E0 m) from rfl,
          h1, getD_set_ne _ _ _ _ _ hne, i1]
      · rw [show ogaRun cfg E0 (m + 1) = ogaStep cfg m (ogaRun cfg E0 m) from rfl,
          h2, getD_set_ne _ _ _ _ _ hne, i2]
      · rw [show ogaRun cfg E0 (m + 1) = ogaStep cfg m (ogaRun cfg E0 m) from rfl,
          h3, getD_set_ne _ _ _ _ _ hne, i3]
      · rw [show ogaRun cfg E0 (m + 1) = ogaStep cfg m (ogaRun cfg E0 m) from rfl,
          h4, getD_set_ne _ _ _ _ _ hne, i4]

/-- Reassembling with an updated tracked solution gives the same Galerkin
system: the assembly reads none of the tracked-solution state. -/
theorem getStiffmat_update (E : EnergyFunc) (f : DiffFun)
    (P C : List (List ℚ)) :
    getStiffmatAndRhs (updateSolution E f) P C = getStiffmatAndRhs E P C :=
  rfl

/-- The outer coefficients written by iteration k are exactly the solver
output on the system assembled from the first k + 1 rows of the updated
history and cache, spliced over the preallocated tail. -/
theorem ogaStep_system (cfg : OGAConfig) (k : Nat) (s : LoopState) :
    (ogaStep cfg k s).outerParam =
      (cfg.solve
        (getStiffmatAndRhs (ogaStep cfg k s).energy
          ((ogaStep cfg k s).innerParam.take (k + 1))
          ((ogaStep cfg k s).coreMat.take (k + 1))).1
        (getStiffmatAndRhs (ogaStep cfg k s).energy
          ((ogaStep cfg k s).innerParam.take (k + 1))
          ((ogaStep cfg k s).coreMat.take (k + 1))).2).take (k + 1)
      ++ s.outerParam.drop (k + 1) :=
  rfl

/-- Claim C1: after iteration k the outer coefficient vector is the dense
length-(k + 1) solver output for the system assembled from the full
parameter history of the first k + 1 selected neurons; it is recomputed
from that history alone, with no dependence on earlier coefficients. -/
theorem C1_outer_coeffs_fully_recomputed (cfg : OGAConfig) (E0 : EnergyFunc)
    (k : Nat) (hk : k < cfg.numEpochs)
    (hsolve : ∀ A b, (cfg.solve A b).length = b.length) :
    (ogaRun cfg E0 (k + 1)).outerParam.take (k + 1)
      = cfg.solve
          (getStiffmatAndRhs (ogaRun cfg E0 (k + 1)).energy
            ((ogaRun cfg E0 (k + 1)).innerParam.take (k + 1))
            ((ogaRun cfg E0 (k + 1)).coreMat.take (k + 1))).1
          (getStiffmatAndRhs (ogaRun cfg E0 (k + 1)).energy
            ((ogaRun cfg E0 (k + 1)).innerParam.take (k + 1))
            ((ogaRun cfg E0 (k + 1)).coreMat.take (k + 1))).2
      ∧ (cfg.solve
          (getStiffmatAndRhs (ogaRun cfg E0 (k + 1)).energy
            ((ogaRun cfg E0 (k + 1)).innerParam.take (k + 1))
            ((ogaRun cfg E0 (k + 1)).coreMat.take (k + 1))).1
          (getStiffmatAndRhs (ogaRun cfg E0 (k + 1)).energy
            ((ogaRun cfg E0 (k + 1)).innerParam.take (k + 1))
            ((ogaRun cfg E0 (k + 1)).coreMat.take (k + 1))).2).length
        = k + 1 := by
  have hcm : (ogaRun cfg E0 (k + 1)).coreMat.length = cfg.numEpochs :=
    (run_len cfg E0 (k + 1)).2.2.2
  have hlen : (cfg.solve
      (getStiffmatAndRhs (ogaRun cfg E0 (k + 1)).energy
        ((ogaRun cfg E0 (k + 1)).innerParam.take (k + 1))
        ((ogaRun cfg E0 (k + 1)).coreMat.take (k + 1))).1
      (getStiffmatAndRhs (ogaRun cfg E0 (k + 1)).energy
        ((ogaRun cfg E0 (k + 1)).innerParam.take (k + 1))
        ((ogaRun cfg E0 (k + 1)).coreMat.take (k + 1))).2).length = k + 1 := by
    rw [hsolve, rhs_length]
    simp [List.length_take, hcm]
    omega
  refine ⟨?_, hlen⟩
  conv_lhs =>
    rw [show ogaRun cfg E0 (k + 1) = ogaStep cfg k (ogaRun cfg E0 k) from rfl,
      ogaStep_system cfg k (ogaRun cfg E0 k)]
  rw [show ogaStep cfg k (ogaRun cfg E0 k) = ogaRun cfg E0 (k + 1) from rfl]
  rw [List.take_append_of_le_length (by rw [List.length_take, hlen]; omega),
    List.take_take, Nat.min_self, List.take_of_length_le (by rw [hlen])]

/-- Claim C3: the stiffness matrix assembled at a later iteration k2
contains the one assembled at an earlier iteration k1 as its leading
principal submatrix, because the history and the core-matrix cache are
append-only. -/
theorem C3_leading_principal_submatrix (cfg : OGAConfig) (E0 : EnergyFunc)
    (k1 k2 i l : Nat) (h12 : k1 < k2) (h2 : k2 < cfg.numEpochs)
    (hi : i ≤ k1) (hl : l ≤ k1) :
    entry (getStiffmatAndRhs (ogaRun cfg E0 (k2 + 1)).energy
        ((ogaRun cfg E0 (k2 + 1)).innerParam.take (k2 + 1))
        ((ogaRun cfg E0 (k2 + 1)).coreMat.take (k2 + 1))).1 i l
      = entry (getStiffmatAndRhs (ogaRun cfg E0 (k1 + 1)).energy
          ((ogaRun cfg E0 (k1 + 1)).innerParam.take (k1 + 1))
          ((ogaRun cfg E0 (k1 + 1)).coreMat.take (k1 + 1))).1 i l := by
  have hL2 := run_len cfg E0 (k2 + 1)
  have hL1 := run_len cfg E0 (k1 + 1)
  have hF2 := run_energy_fields cfg E0 (k2 + 1)
  have hF1 := run_energy_fields cfg E0 (k1 + 1)
  have hSi := run_rows_stable cfg E0 i (k1 + 1) (k2 + 1) (by omega) (by omega)
  have hSl := run_rows_stable cfg E0 l (k1 + 1) (k2 + 1) (by omega) (by omega)
  rw [entry_stiffmat, entry_stiffmat]
  have hlen2C : ((ogaRun cfg E0 (k2 + 1)).coreMat.take (k2 + 1)).length
      = k2 + 1 := by
    simp [List.length_take, hL2.2.2.2]; omega
  have hlen2P : ((ogaRun cfg E0 (k2 + 1)).innerParam.take (k2 + 1)).length
      = k2 + 1 := by
    simp [List.length_take, hL2.2.2.1]; omega
  have hlen1C : ((ogaRun cfg E0 (k1 + 1)).coreMat.take (k1 + 1)).length
      = k1 + 1 := by
    simp [List.length_take, hL1.2.2.2]; omega
  have hlen1P : ((ogaRun cfg E0 (k1 + 1)).innerParam.take (k1 + 1)).length
      = k1 + 1 := by
    simp [List.length_take, hL1.2.2.1]; omega
  rw [if_pos ⟨by omega, by omega, by omega, by omega⟩,
    if_pos ⟨by omega, by omega, by omega, by omega⟩]
  have e1 : ((ogaRun cfg E0 (k2 + 1)).coreMat.take (k2 + 1)).getD i []
      = (ogaRun cfg E0 (k1 + 1)).coreMat.getD i [] := by
    rw [getD_take _ _ _ _ (by omega)]; exact hSi.2.2.2
  have e2 : ((ogaRun cfg E0 (k2 + 1)).coreMat.take (k2 + 1)).getD l []
      = (ogaRun cfg E0 (k1 + 1)).coreMat.getD l [] := by
    rw [getD_take _ _ _ _ (by omega)]; exact hSl.2.2.2
  have e3 : ((ogaRun cfg E0 (k2 + 1)).innerParam.take (k2 + 1)).getD i []
      = (ogaRun cfg E0 (k1 + 1)).innerParam.getD i [] := by
    rw [getD_take _ _ _ _ (by omega)]; exact hSi.2.2.1
  have e4 : ((ogaRun cfg E0 (k2 + 1)).innerParam.take (k2 + 1)).getD l []
      = (ogaRun cfg E0 (k1 + 1)).innerParam.getD l [] := by
    rw [getD_take _ _ _ _ (by omega)]; exact hSl.2.2.1
  have f1 : ((ogaRun cfg E0 (k1 + 1)).coreMat.take (k1 + 1)).getD i []
      = (ogaRun cfg E0 (k1 + 1)).coreMat.getD i [] :=
    getD_take _ _ _ _ (by omega)
  have f2 : ((ogaRun cfg E0 (k1 + 1)).coreMat.take (k1 + 1)).getD l []
      = (ogaRun cfg E0 (k1 + 1)).coreMat.getD l [] :=
    getD_take _ _ _ _ (by omega)
  have f3 : ((ogaRun cfg E0 (k1 + 1)).innerParam.take (k1 + 1)).getD i []
      = (ogaRun cfg E0 (k1 + 1)).innerParam.getD i [] :=
    getD_take _ _ _ _ (by omega)
  have f4 : ((ogaRun cfg E0 (k1 + 1)).innerParam.take (k1 + 1)).getD l []
      = (ogaRun cfg E0 (k1 + 1)).innerParam.getD l [] :=
    getD_take _ _ _ _ (by omega)
  simp only [e1, e2, e3, e4, f1, f2, f3, f4,
    hF2.1, hF2.2.1, hF2.2.2.1, hF2.2.2.2.1, hF2.2.2.2.2.1,
    hF1.1, hF1.2.1, hF1.2.2.1, hF1.2.2.2.1, hF1.2.2.2.2.1]

/-! Lemmas about the autograd heap and list membership. -/

theorem getD_append_len {α : Type} (A : List α) (x d : α) :
    (A ++ [x]).getD A.length d = x := by
  induction A with
  | nil => rfl
  | cons a A ih => simp [List.getD, ih]

theorem getD_append_lt {α : Type} (A B : List α) (i : Nat)
    (h : i < A.length) (d : α) : (A ++ B).getD i d = A.getD i d := by
  induction A generalizing i with
  | nil => exact absurd h (by simp)
  | cons a A ih =>
    cases i with
    | zero => rfl
    | succ i => simpa [List.getD] using ih i (by simpa using h)

theorem getD_set_self {α : Type} (A : List α) (m : Nat) (a d : α)
    (h : m < A.length) : (A.set m a).getD m d = a := by
  induction A generalizing m with
  | nil => exact absurd h (by simp)
  | cons x A ih =>
    cases m with
    | zero => rfl
    | succ m => simpa [List.getD] using ih m (by simpa using h)

/-- After a gradient evaluation, the quadrature values self.quadpts sees
are numerically unchanged. -/
theorem read_after_items (f : DiffFun) (s : AGState) :
    ((getEnergyItems f s).2).read = s.read := by
  simp only [getEnergyItems, AGState.read]
  rw [getD_append_len]

theorem mem_zipWith {α β γ : Type} (f : α → β → γ) (as : List α)
    (bs : List β) (x : γ) (hx : x ∈ List.zipWith f as bs) :
    ∃ a b, x = f a b := by
  induction as generalizing bs with
  | nil => simp at hx
  | cons a as ih =>
    cases bs with
    | nil => simp at hx
    | cons b bs =>
      simp only [List.zipWith_cons_cons, List.mem_cons] at hx
      rcases hx with h | h
      · exact ⟨a, b, h⟩
      · exact ih bs h

theorem sq_weighted_sum_nonneg (xs ws : List ℚ)
    (hws : ∀ w ∈ ws, 0 ≤ w) :
    0 ≤ (hadamard (xs.map (fun a => a ^ 2)) ws).sum := by
  induction xs generalizing ws with
  | nil => simp [hadamard]
  | cons a xs ih =>
    cases ws with
    | nil => simp [hadamard]
    | cons w ws =>
      have h1 : 0 ≤ a ^ 2 * w := mul_nonneg (sq_nonneg a) (hws w (by simp))
      have h2 := ih ws (fun x hx => hws x (by simp [hx]))
      simp only [hadamard, List.map_cons, List.zipWith_cons_cons,
        List.sum_cons] at h2 ⊢
      exact add_nonneg h1 h2

/-- Claim C4: with positive quadrature weights and positive area, both
scalars returned by energy_error are non-negative. -/
theorem C4_energy_error_nonneg (E : EnergyFunc)
    (hw : ∀ w ∈ E.weights, 0 < w) (ha : 0 < E.area) :
    0 ≤ (energyError E).1.1 ∧ 0 ≤ (energyError E).1.2 := by
  have hw' : ∀ w ∈ E.weights, 0 ≤ w := fun w h => le_of_lt (hw w h)
  constructor
  · show 0 ≤ (hadamard ((E.ag.read.map (getError E).val).map (fun a => a ^ 2))
      E.weights).sum * E.area
    exact mul_nonneg (sq_weighted_sum_nonneg _ _ hw') ha.le
  · show 0 ≤ 0
      + (hadamard ((E.ag.read.map (getError E).val).map (fun a => a ^ 2))
          E.weights).sum * E.area
      + (hadamard ((E.ag.read.map (getError E).grad).map (fun a => a ^ 2))
          E.weights).sum * E.area
      + (hadamard ((E.ag.read.map (getError E).hess).map (fun a => a ^ 2))
          E.weights).sum * E.area
    have t1 := mul_nonneg (sq_weighted_sum_nonneg
      (E.ag.read.map (getError E).val) E.weights hw') ha.le
    have t2 := mul_nonneg (sq_weighted_sum_nonneg
      (E.ag.read.map (getError E).grad) E.weights hw') ha.le
    have t3 := mul_nonneg (sq_weighted_sum_nonneg
      (E.ag.read.map (getError E).hess) E.weights hw') ha.le
    linarith

/-- Claim C5: every candidate score returned by evaluate is minus one half
times a squared area-scaled residual, hence non-positive. -/
theorem C5_evaluate_nonpositive (E : EnergyFunc) (paramW paramB : List ℚ)
    (x : ℚ) (hx : x ∈ (evaluate E paramW paramB).1) :
    x ≤ 0 ∧ ∃ r, x = -(1/2) * (r * E.area) ^ 2 := by
  have hx' : x ∈ List.zipWith
      (scoreOne E (((evaluate E paramW paramB).2).ag).read
        (hadamard E.sourceData E.weights)
        (hadamard ((getEnergyItems E.preSolution E.ag).1.1) E.weights)
        (hadamard ((getEnergyItems E.preSolution E.ag).1.2.2) E.weights))
      paramW paramB := hx
  obtain ⟨wi, bi, hwb⟩ := mem_zipWith _ _ _ _ hx'
  rw [hwb, scoreOne]
  constructor
  · have h := sq_nonneg ((dot ((((evaluate E paramW paramB).2).ag).read.map
        (fun x => wi * x + bi) |>.map (fun x => E.dsigma x 2))
        (hadamard ((getEnergyItems E.preSolution E.ag).1.2.2) E.weights)
        * wi * wi
      + dot ((((evaluate E paramW paramB).2).ag).read.map
          (fun x => wi * x + bi) |>.map E.sigma)
        (hadamard ((getEnergyItems E.preSolution E.ag).1.1) E.weights)
      - dot ((((evaluate E paramW paramB).2).ag).read.map
          (fun x => wi * x + bi) |>.map E.sigma)
        (hadamard E.sourceData E.weights)) * E.area)
    nlinarith
  · exact ⟨_, rfl⟩

/-- Claim C6: calling energy_error twice without an intervening
update_solution returns identical values; the internal toggling of the
quadrature differentiation state leaves the numerical values unchanged. -/
theorem C6_energy_error_idempotent (E : EnergyFunc) :
    (energyError ((energyError E).2)).1 = (energyError E).1 := by
  have hread : (((energyError E).2).ag).read = E.ag.read :=
    read_after_items (getError E) E.ag
  show ((energyNorm ((energyError E).2) (getError ((energyError E).2))).1
    = (energyNorm E (getError E)).1)
  have hgE : getError ((energyError E).2) = getError E := rfl
  rw [hgE]
  show ((hadamard (((((energyError E).2).ag).read.map (getError E).val).map
        (fun a => a ^ 2)) E.weights).sum * E.area,
      0 + (hadamard (((((energyError E).2).ag).read.map (getError E).val).map
          (fun a => a ^ 2)) E.weights).sum * E.area
        + (hadamard (((((energyError E).2).ag).read.map (getError E).grad).map
          (fun a => a ^ 2)) E.weights).sum * E.area
        + (hadamard (((((energyError E).2).ag).read.map (getError E).hess).map
          (fun a => a ^ 2)) E.weights).sum * E.area)
    = ((hadamard ((E.ag.read.map (getError E).val).map
        (fun a => a ^ 2)) E.weights).sum * E.area,
      0 + (hadamard ((E.ag.read.map (getError E).val).map
          (fun a => a ^ 2)) E.weights).sum * E.area
        + (hadamard ((E.ag.read.map (getError E).grad).map
          (fun a => a ^ 2)) E.weights).sum * E.area
        + (hadamard ((E.ag.read.map (getError E).hess).map
          (fun a => a ^ 2)) E.weights).sum * E.area)
  rw [hread]

/-- Claim C9: the large-scale evaluation mode returns exactly the result of
sequential evaluation. -/
theorem C9_large_scale_equals_evaluate (E : EnergyFunc)
    (paramW paramB : List ℚ) :
    evaluateLargeScale E paramW paramB = evaluate E paramW paramB :=
  rfl

/-- Claim C7: update_solution rebinds only the tracked approximation; every
other field of the energy functional is untouched, and error-history rows
already recorded by the orchestrator before a later iteration keep exactly
the value written when they were recorded. -/
theorem C7_update_solution_frame (E : EnergyFunc) (f : DiffFun)
    (cfg : OGAConfig) (E0 : EnergyFunc) (j k : Nat) (hjk : j < k) :
    (updateSolution E f).preSolution = f
      ∧ (updateSolution E f).sigma = E.sigma
      ∧ (updateSolution E f).dsigma = E.dsigma
      ∧ (updateSolution E f).ag = E.ag
      ∧ (updateSolution E f).weights = E.weights
      ∧ (updateSolution E f).area = E.area
      ∧ (updateSolution E f).sourceData = E.sourceData
      ∧ (updateSolution E f).pde = E.pde
      ∧ (updateSolution E f).parallelEvaluation = E.parallelEvaluation
      ∧ (ogaRun cfg E0 k).errL2.getD j 0
          = (ogaRun cfg E0 (j + 1)).errL2.getD j 0
      ∧ (ogaRun cfg E0 k).errH1.getD j 0
          = (ogaRun cfg E0 (j + 1)).errH1.getD j 0 := by
  have hs := run_rows_stable cfg E0 j (j + 1) k (by omega) (by omega)
  exact ⟨rfl, rfl, rfl, rfl, rfl, rfl, rfl, rfl, rfl, hs.1, hs.2.1⟩

/-- A callable used to drive the gradient evaluation in concrete states. -/
def demoDiff : DiffFun := ⟨fun x => x, fun _ => 1, fun _ => 0⟩

/-- A concrete autograd heap: one quadrature tensor, shared with the
quadrature provider, differentiation disabled. -/
def demoAG : AGState := ⟨[⟨[1], false⟩], 0⟩

/-- Counterexample for claim C8: _get_energy_items does not enable
differentiation on a fresh copy; it mutates the shared quadrature tensor
(heap object 0, the one created by the quadrature provider) in place,
leaving that shared object with differentiation enabled. -/
theorem C8_counterexample_shared_tensor_mutated :
    (demoAG.objs.getD 0 ⟨[], true⟩).requiresGrad = false
      ∧ (((getEnergyItems demoDiff demoAG).2).objs.getD 0
          ⟨[], false⟩).requiresGrad = true := by
  exact ⟨rfl, rfl⟩

/-- Amended claim C8: each call returns the detached value, gradient and
Hessian evaluated on the current quadrature values, enables
differentiation by mutating the currently bound quadrature tensor in
place (so the previously bound, shared object is left with
requires_grad on), and rebinds the stored quadrature points to a fresh
detached object with the same numerical values and differentiation
disabled. -/
theorem C8_items_detached_state_restored (f : DiffFun) (s : AGState)
    (h : s.selfQuad < s.objs.length) :
    (getEnergyItems f s).1.1 = s.read.map f.val
      ∧ (getEnergyItems f s).1.2.1 = s.read.map f.grad
      ∧ (getEnergyItems f s).1.2.2 = s.read.map f.hess
      ∧ ((getEnergyItems f s).2).read = s.read
      ∧ (((getEnergyItems f s).2).objs.getD ((getEnergyItems f s).2).selfQuad
          ⟨[], true⟩).requiresGrad = false
      ∧ ((getEnergyItems f s).2).objs.getD s.selfQuad ⟨[], false⟩
          = ⟨s.read, true⟩ := by
  refine ⟨rfl, rfl, rfl, read_after_items f s, ?_, ?_⟩
  · show ((((s.objs.set s.selfQuad (QTensor.mk s.read true))
        ++ [QTensor.mk s.read false]).getD
      (s.objs.set s.selfQuad (QTensor.mk s.read true)).length
      (QTensor.mk [] true))).requiresGrad = false
    rw [getD_append_len]
  · show ((s.objs.set s.selfQuad (QTensor.mk s.read true))
        ++ [QTensor.mk s.read false]).getD
      s.selfQuad (QTensor.mk [] false) = QTensor.mk s.read true
    rw [getD_append_lt _ _ _ (by simp [h]),
      getD_set_self _ _ _ _ h]

/-- Claim C10: right after construction the tracked approximation is the
zero function, so the first energy_error call returns the squared L2 norm
and the squared energy norm of the exact solution itself. -/
theorem C10_initial_error_is_solution_norm (sigma : ℚ → ℚ)
    (dsigma : ℚ → Nat → ℚ) (quadpts weights : List ℚ) (area : ℚ)
    (pde : PDEData) (sinF cosF : ℚ → ℚ) (pe : Bool) :
    (∀ p, (initEnergy sigma dsigma quadpts weights area pde sinF
        cosF pe).preSolution.val p = 0)
      ∧ (energyError (initEnergy sigma dsigma quadpts weights area pde sinF
          cosF pe)).1.1
        = (hadamard (quadpts.map (fun x => pde.solution.val x ^ 2))
            weights).sum * area
      ∧ (energyError (initEnergy sigma dsigma quadpts weights area pde sinF
          cosF pe)).1.2
        = (hadamard (quadpts.map (fun x => pde.solution.val x ^ 2))
              weights).sum * area
          + (hadamard (quadpts.map (fun x => pde.solution.grad x ^ 2))
              weights).sum * area
          + (hadamard (quadpts.map (fun x => pde.solution.hess x ^ 2))
              weights).sum * area := by
  have hval : ((fun p => pde.solution.val p - 0 * sinF p)) =
      fun p => pde.solution.val p := by
    funext p; ring
  have hgrad : ((fun p => pde.solution.grad p - 0 * cosF p)) =
      fun p => pde.solution.grad p := by
    funext p; ring
  have hhess : ((fun p => pde.solution.hess p - 0 * (-(sinF p)))) =
      fun p => pde.solution.hess p := by
    funext p; ring
  have hread : (initEnergy sigma dsigma quadpts weights area pde sinF
      cosF pe).ag.read = quadpts := rfl
  refine ⟨fun p => by simp [initEnergy, zeroFun], ?_, ?_⟩
  · show (hadamard ((quadpts.map (fun p => pde.solution.val p - 0 * sinF p)).map
        (fun a => a ^ 2)) weights).sum * area
      = (hadamard (quadpts.map (fun x => pde.solution.val x ^ 2))
          weights).sum * area
    rw [hval, List.map_map]
    rfl
  · show (0 + (hadamard ((quadpts.map (fun p => pde.solution.val p - 0 * sinF p)).map
          (fun a => a ^ 2)) weights).sum * area
        + (hadamard ((quadpts.map (fun p => pde.solution.grad p - 0 * cosF p)).map
          (fun a => a ^ 2)) weights).sum * area
        + (hadamard ((quadpts.map (fun p => pde.solution.hess p - 0 * (-(sinF p)))).map
          (fun a => a ^ 2)) weights).sum * area)
      = (hadamard (quadpts.map (fun x => pde.solution.val x ^ 2)) weights).sum * area
        + (hadamard (quadpts.map (fun x => pde.solution.grad x ^ 2)) weights).sum * area
        + (hadamard (quadpts.map (fun x => pde.solution.hess x ^ 2)) weights).sum * area
    rw [hval, hgrad, hhess, List.map_map, List.map_map, List.map_map]
    rw [zero_add]
    rfl

/-! Concrete instances used to exercise the theorems. -/

/-- A concrete PDE collaborator: identity solution, unit source. -/
def demoPDE : PDEData := ⟨⟨fun p => p, fun _ => 1, fun _ => 0⟩, fun _ => 1⟩

/-- A concrete energy functional over two quadrature points. -/
def demoEnergy : EnergyFunc :=
  initEnergy (fun x => x) (fun x _ => x) [0, 1] [1, 1] 1 demoPDE
    (fun _ => 0) (fun _ => 0) false

/-- A concrete orchestrator configuration with trivial collaborators. -/
def demoCfg : OGAConfig :=
  { numEpochs := 3
    dict := fun _ => [1, 0]
    solve := fun _ b => b
    sqrtF := fun x => x
    forward := fun _ _ => ⟨fun _ => 0, fun _ => 0, fun _ => 0⟩ }

/-- Witness for claim C1 at iteration k = 0 of a concrete run. -/
theorem C1_witness :
    ((ogaRun demoCfg demoEnergy 1).outerParam.take 1).length = 1 :=
  (congrArg List.length
    (C1_outer_coeffs_fully_recomputed demoCfg demoEnergy 0 (by decide)
      (fun A b => rfl)).1).trans
    (C1_outer_coeffs_fully_recomputed demoCfg demoEnergy 0 (by decide)
      (fun A b => rfl)).2

/-- Witness for claim C3 with k1 = 0, k2 = 1 on a concrete run. -/
theorem C3_witness :
    entry (getStiffmatAndRhs (ogaRun demoCfg demoEnergy 2).energy
        ((ogaRun demoCfg demoEnergy 2).innerParam.take 2)
        ((ogaRun demoCfg demoEnergy 2).coreMat.take 2)).1 0 0
      = entry (getStiffmatAndRhs (ogaRun demoCfg demoEnergy 1).energy
          ((ogaRun demoCfg demoEnergy 1).innerParam.take 1)
          ((ogaRun demoCfg demoEnergy 1).coreMat.take 1)).1 0 0 :=
  C3_leading_principal_submatrix demoCfg demoEnergy 0 1 0 0 (by decide)
    (by decide) (by decide) (by decide)

/-- Witness for claim C4 on a concrete energy functional. -/
theorem C4_witness :
    0 ≤ (energyError demoEnergy).1.1 ∧ 0 ≤ (energyError demoEnergy).1.2 :=
  C4_energy_error_nonneg demoEnergy (by decide) (by decide)

/-- Witness for claim C5 on a concrete candidate parameter. -/
theorem C5_witness :
    (evaluate demoEnergy [1] [0]).1.getD 0 1 ≤ 0
      ∧ ∃ r, (evaluate demoEnergy [1] [0]).1.getD 0 1
          = -(1/2) * (r * demoEnergy.area) ^ 2 :=
  C5_evaluate_nonpositive demoEnergy [1] [0] _ (List.mem_cons_self _ _)

/-- Witness for claim C7 with j = 0 and k = 2 on a concrete run. -/
theorem C7_witness :
    (updateSolution demoEnergy demoDiff).preSolution = demoDiff
      ∧ (updateSolution demoEnergy demoDiff).sigma = demoEnergy.sigma
      ∧ (updateSolution demoEnergy demoDiff).dsigma = demoEnergy.dsigma
      ∧ (updateSolution demoEnergy demoDiff).ag = demoEnergy.ag
      ∧ (updateSolution demoEnergy demoDiff).weights = demoEnergy.weights
      ∧ (updateSolution demoEnergy demoDiff).area = demoEnergy.area
      ∧ (updateSolution demoEnergy demoDiff).sourceData
          = demoEnergy.sourceData
      ∧ (updateSolution demoEnergy demoDiff).pde = demoEnergy.pde
      ∧ (updateSolution demoEnergy demoDiff).parallelEvaluation
          = demoEnergy.parallelEvaluation
      ∧ (ogaRun demoCfg demoEnergy 2).errL2.getD 0 0
          = (ogaRun demoCfg demoEnergy 1).errL2.getD 0 0
      ∧ (ogaRun demoCfg demoEnergy 2).errH1.getD 0 0
          = (ogaRun demoCfg demoEnergy 1).errH1.getD 0 0 :=
  C7_update_solution_frame demoEnergy demoDiff demoCfg demoEnergy 0 2
    (by decide)

/-- Witness for the amended claim C8 on a concrete heap. -/
theorem C8_witness :
    (getEnergyItems demoDiff demoAG).1.1 = demoAG.read.map demoDiff.val
      ∧ (getEnergyItems demoDiff demoAG).1.2.1
          = demoAG.read.map demoDiff.grad
      ∧ (getEnergyItems demoDiff demoAG).1.2.2
          = demoAG.read.map demoDiff.hess
      ∧ ((getEnergyItems demoDiff demoAG).2).read = demoAG.read
      ∧ (((getEnergyItems demoDiff demoAG).2).objs.getD
          ((getEnergyItems demoDiff demoAG).2).selfQuad
          (QTensor.mk [] true)).requiresGrad = false
      ∧ ((getEnergyItems demoDiff demoAG).2).objs.getD demoAG.selfQuad
          (QTensor.mk [] false) = QTensor.mk demoAG.read true :=
  C8_items_detached_state_restored demoDiff demoAG (by decide)

end OGA
